import Mathlib

/-!
Verification of the text-to-embedding-matrix pipeline of
sparkdl's transformer module (tf_text.py).

Shallow embedding of the text-to-embedding-matrix pipeline of
`TFTextTransformer._transform` and its nested helpers
(`_pad_sequences`, `convert_word_to_index`), together with the
vocabulary construction (`word_embedding` with the `"unk"` insertion)
and the dataframe column additions (`withColumn` chain producing
`doc_martic`).

Modelling choices:
* Float values (`FloatType` cells, embedding-vector components) are
  modelled as `ℚ`: the pipeline only copies vectors and writes exact
  `0.0` components, so no floating-point rounding is involved.
* A Python `dict` (and a dataframe row's column map) is modelled as an
  association list with unique keys; item assignment `d[k] = v`
  replaces the value of an existing key in place and appends a fresh
  key at the end, exactly Python's (insertion-ordered) dict semantics.
* `re.split(r"\s+", s)` splits on maximal whitespace runs and keeps
  the (possibly empty) boundary pieces, so `""` yields `[""]` and
  `" a"` yields `["", "a"]`; `splitWs` below reproduces this.
* `np.array(m).reshape(shape).tolist()` on an L×E nested list flattens
  row-major and regroups to `shape`; `npReshape` models it for the
  ranks the transformer's UDF return types can carry (1 and 2) and
  fails (`none`) on an element-count mismatch, as numpy raises.
-/

/-- Python-dict lookup `d[k]` / `k in d` on an association list:
the value of the first (for a dict: the only) entry with key `k`. -/
def alookup {α : Type} : List (String × α) → String → Option α
  | [], _ => none
  | p :: ps, k => if p.1 = k then some p.2 else alookup ps k

/-- Python-dict item assignment `d[k] = v` (also Spark
`DataFrame.withColumn`): replace the value at an existing key, keeping
its position, otherwise append the new entry at the end. -/
def ainsert {α : Type} : List (String × α) → String → α → List (String × α)
  | [], k, v => [(k, v)]
  | p :: ps, k, v => if p.1 = k then (k, v) :: ps else p :: ainsert ps k v

/-- The all-zero vector of length `E`, as `np.zeros(E).tolist()`. -/
def zeroVec (E : ℕ) : List ℚ := List.replicate E 0

/-- A trained vocabulary: word → vector pairs as collected from
`vectorsDf.rdd.map(lambda p: (p.word, p.vector.values.tolist()))`. -/
abbrev Vocab := List (String × List ℚ)

/-- The dictionary `word_embedding` after the post-processing line
`word_embedding["unk"] = np.zeros(self.getEmbeddingSize()).tolist()`:
the trained dictionary with `"unk"` bound to the zero vector. -/
def word_embedding (trained : Vocab) (E : ℕ) : Vocab :=
  ainsert trained "unk" (zeroVec E)

/-- One step of `re.split(r"\s+", s)`: `acc` holds the current token's
characters in reverse; a whitespace character emits the current token
and switches into run-skipping mode (`inRun`), so a whitespace run
contributes exactly one boundary. -/
def splitWsAux : List Char → List Char → Bool → List String
  | [], acc, _ => [String.mk acc.reverse]
  | c :: rest, acc, inRun =>
    if c.isWhitespace then
      if inRun then splitWsAux rest [] true
      else String.mk acc.reverse :: splitWsAux rest [] true
    else splitWsAux rest (c :: acc) false

/-- Whitespace splitting `re.split(r"\s+", s)`: split on maximal
whitespace runs, keeping empty boundary pieces at the ends (the empty
string gives `[""]`). -/
def splitWs (s : String) : List String :=
  splitWsAux s.data [] false

/-- The comprehension
`[local_word_embedding.value[word] for word in tokens if word in local_word_embedding.value.keys()]`:
keep the tokens that are vocabulary keys, in order, and replace each by
its vector. -/
def lookup_tokens (d : Vocab) (tokens : List String) : List (List ℚ) :=
  (tokens.filter (fun w => (alookup d w).isSome)).map
    (fun w => (alookup d w).getD [])

/-- The helper `_pad_sequences(sequences, maxlen)` with
`np.zeros(self.getEmbeddingSize())` as the padding row: if the input
holds at most `maxlen` rows, append zero rows up to `maxlen`,
otherwise keep the first `maxlen` rows (`sequences[0:maxlen]`). -/
def pad_sequences (E : ℕ) (sequences : List (List ℚ)) (maxlen : ℕ) :
    List (List ℚ) :=
  if sequences.length ≤ maxlen then
    sequences ++ List.replicate (maxlen - sequences.length) (zeroVec E)
  else
    sequences.take maxlen

/-- The flag
`not_array_2d = len(self.getShape()) != 2 or self.getShape()[0] != self.getSequenceLength()`.
Note the second dimension of the shape is never compared with the
embedding size. -/
def not_array_2d (shape : List ℕ) (L : ℕ) : Bool :=
  shape.length != 2 || shape.headD 0 != L

/-- A UDF result value: either a flat `ArrayType(FloatType())` or a
nested `ArrayType(ArrayType(FloatType()))`. -/
inductive Val : Type where
  | arr1 : List ℚ → Val
  | arr2 : List (List ℚ) → Val
deriving DecidableEq, Repr

/-- Row-major regrouping of a flat list into rows of `b` elements,
with the list's length as structural fuel (enough, since each step
consumes `b ≥ 1` elements of a nonempty list). -/
def chunksAux : ℕ → ℕ → List ℚ → List (List ℚ)
  | 0, _, _ => []
  | _ + 1, _, [] => []
  | fuel + 1, b, c :: cs =>
    (c :: cs).take b :: chunksAux fuel b ((c :: cs).drop b)

/-- Row-major regrouping into rows of `b` elements. -/
def chunks (b : ℕ) (l : List ℚ) : List (List ℚ) :=
  if b = 0 then [] else chunksAux l.length b l

/-- Reshape `np.array(flat).reshape(shape).tolist()` for the ranks the
UDF return types can carry: rank 1 returns the row-major flat list itself,
rank 2 regroups it into `a` rows of `b`; an element-count mismatch is
numpy's reshape error (`none`). -/
def npReshape (flat : List ℚ) (shape : List ℕ) : Option Val :=
  match shape with
  | [n] => if flat.length = n then some (Val.arr1 flat) else none
  | [a, b] =>
      if flat.length = a * b then some (Val.arr2 (chunks b flat)) else none
  | _ => none

/-- The encoder `convert_word_to_index(s)`: split `s` on whitespace, look up the
in-vocabulary tokens in `word_embedding` (with `"unk"` inserted), pad
or truncate to the sequence length `L`, and reshape the result iff
`not_array_2d` holds. -/
def convert_word_to_index (trained : Vocab) (E L : ℕ) (shape : List ℕ)
    (s : String) : Option Val :=
  let d := word_embedding trained E
  let new_q := lookup_tokens d (splitWs s)
  let result := pad_sequences E new_q L
  if not_array_2d shape L then npReshape result.flatten shape
  else some (Val.arr2 result)

/-- A dataframe cell: a text value, an integer literal (`lit(...)`),
or a UDF result. -/
inductive Cell : Type where
  | str : String → Cell
  | nat : ℕ → Cell
  | arr : Option Val → Cell
deriving DecidableEq, Repr

/-- A dataframe row: ordered column-name/value pairs. -/
abbrev Row := List (String × Cell)

/-- The string held by a row's input column (`cwti_udf(self.getInputCol())`
is applied to the input column's text value). -/
def rowInputStr (row : Row) (inCol : String) : String :=
  match alookup row inCol with
  | some (Cell.str s) => s
  | _ => ""

/-- The `withColumn` chain building `doc_martic`, per row: add the
encoded sequence under the output column name, then
`vocab_size = lit(len(word_embedding))`, then
`embedding_size = lit(self.getEmbeddingSize())`. -/
def transformRow (trained : Vocab) (E L : ℕ) (shape : List ℕ)
    (inCol outCol : String) (row : Row) : Row :=
  ainsert
    (ainsert
      (ainsert row outCol
        (Cell.arr (convert_word_to_index trained E L shape
          (rowInputStr row inCol))))
      "vocab_size" (Cell.nat (word_embedding trained E).length))
    "embedding_size" (Cell.nat E)

/-- The method `TFTextTransformer._transform` after vocabulary
construction: the dataset with every row put through the `withColumn`
chain. -/
def tfText_transform (trained : Vocab) (E L : ℕ) (shape : List ℕ)
    (inCol outCol : String) (rows : List Row) : List Row :=
  rows.map (transformRow trained E L shape inCol outCol)

/-! Helper lemmas about association lists, token lookup and padding. -/

theorem alookup_ainsert_self {α : Type} (d : List (String × α)) (k : String)
    (v : α) : alookup (ainsert d k v) k = some v := by
  induction d with
  | nil => simp [ainsert, alookup]
  | cons p ps ih =>
      obtain ⟨a, b⟩ := p
      by_cases h : a = k
      · simp [ainsert, alookup, h]
      · simp [ainsert, alookup, h, ih]

theorem alookup_ainsert_ne {α : Type} (d : List (String × α)) (k k' : String)
    (v : α) (h : k' ≠ k) : alookup (ainsert d k v) k' = alookup d k' := by
  have hkk' : ¬ (k = k') := Ne.symm h
  induction d with
  | nil => simp [ainsert, alookup, hkk']
  | cons p ps ih =>
      obtain ⟨a, b⟩ := p
      by_cases hp : a = k
      · subst hp
        simp [ainsert, alookup, hkk']
      · simp [ainsert, alookup, hp, ih]

theorem alookup_eq_none_of_not_mem {α : Type} (d : List (String × α))
    (k : String) (h : k ∉ d.map Prod.fst) : alookup d k = none := by
  induction d with
  | nil => rfl
  | cons p ps ih =>
      obtain ⟨a, b⟩ := p
      simp only [List.map_cons, List.mem_cons] at h
      push_neg at h
      have ha : ¬ (a = k) := Ne.symm h.1
      simp [alookup, ha, ih h.2]

theorem ainsert_length_fresh {α : Type} (d : List (String × α)) (k : String)
    (v : α) (h : alookup d k = none) :
    (ainsert d k v).length = d.length + 1 := by
  induction d with
  | nil => rfl
  | cons p ps ih =>
      obtain ⟨a, b⟩ := p
      by_cases hp : a = k
      · simp [alookup, hp] at h
      · simp only [alookup, hp, if_false] at h
        simp [ainsert, hp, ih h]

theorem ainsert_keys_fresh {α : Type} (d : List (String × α)) (k : String)
    (v : α) (h : alookup d k = none) :
    (ainsert d k v).map Prod.fst = d.map Prod.fst ++ [k] := by
  induction d with
  | nil => rfl
  | cons p ps ih =>
      obtain ⟨a, b⟩ := p
      by_cases hp : a = k
      · simp [alookup, hp] at h
      · simp only [alookup, hp, if_false] at h
        simp [ainsert, hp, ih h]

theorem mem_of_alookup_eq_some {α : Type} (d : List (String × α))
    (k : String) (v : α) (h : alookup d k = some v) : (k, v) ∈ d := by
  induction d with
  | nil => simp [alookup] at h
  | cons p ps ih =>
      obtain ⟨a, b⟩ := p
      by_cases hp : a = k
      · subst hp
        simp only [alookup, if_pos] at h
        simp at h
        rw [← h]
        exact List.mem_cons_self _ _
      · simp only [alookup, hp, if_false] at h
        exact List.mem_cons_of_mem _ (ih h)

theorem mem_ainsert {α : Type} (d : List (String × α)) (k : String) (v : α)
    (p : String × α) (h : p ∈ ainsert d k v) : p = (k, v) ∨ p ∈ d := by
  induction d with
  | nil => simpa [ainsert] using h
  | cons q qs ih =>
      obtain ⟨a, b⟩ := q
      by_cases hq : a = k
      · subst hq
        simp only [ainsert, if_pos] at h
        simp at h
        rcases h with h | h
        · exact Or.inl (by simp [h])
        · exact Or.inr (List.mem_cons_of_mem _ h)
      · simp only [ainsert, hq, if_false] at h
        rcases List.mem_cons.1 h with h | h
        · exact Or.inr (h ▸ List.mem_cons_self _ _)
        · rcases ih h with h | h
          · exact Or.inl h
          · exact Or.inr (List.mem_cons_of_mem _ h)

theorem unk_word_embedding (trained : Vocab) (E : ℕ) :
    alookup (word_embedding trained E) "unk" = some (zeroVec E) :=
  alookup_ainsert_self trained "unk" (zeroVec E)

theorem word_embedding_vec_length (trained : Vocab) (E : ℕ)
    (hE : ∀ p ∈ trained, (Prod.snd p).length = E) :
    ∀ p ∈ word_embedding trained E, (Prod.snd p).length = E := by
  intro p hp
  rcases mem_ainsert trained "unk" (zeroVec E) p hp with h | h
  · subst h
    simp [zeroVec]
  · exact hE p h

theorem lookup_tokens_append (d : Vocab) (xs ys : List String) :
    lookup_tokens d (xs ++ ys) = lookup_tokens d xs ++ lookup_tokens d ys := by
  simp [lookup_tokens, List.filter_append]

theorem lookup_tokens_cons_of_some (d : Vocab) (w : String) (v : List ℚ)
    (ws : List String) (h : alookup d w = some v) :
    lookup_tokens d (w :: ws) = v :: lookup_tokens d ws := by
  simp [lookup_tokens, List.filter_cons, h]

theorem lookup_tokens_cons_of_none (d : Vocab) (w : String)
    (ws : List String) (h : alookup d w = none) :
    lookup_tokens d (w :: ws) = lookup_tokens d ws := by
  simp [lookup_tokens, List.filter_cons, h]

theorem lookup_tokens_vec_length (d : Vocab) (E : ℕ) (ws : List String)
    (hE : ∀ p ∈ d, (Prod.snd p).length = E) :
    ∀ v ∈ lookup_tokens d ws, v.length = E := by
  intro v hv
  simp only [lookup_tokens, List.mem_map, List.mem_filter] at hv
  rcases hv with ⟨w, ⟨_, hsome⟩, hval⟩
  rcases Option.isSome_iff_exists.1 hsome with ⟨u, hu⟩
  rw [hu] at hval
  simp only [Option.getD_some] at hval
  subst hval
  exact hE (w, u) (mem_of_alookup_eq_some d w u hu)

theorem pad_sequences_length (E : ℕ) (seq : List (List ℚ)) (L : ℕ) :
    (pad_sequences E seq L).length = L := by
  unfold pad_sequences
  by_cases h : seq.length ≤ L
  · simp [h, Nat.add_sub_cancel' h]
  · push_neg at h
    simp [Nat.not_le_of_lt h, List.length_take, Nat.min_eq_left (Nat.le_of_lt h)]

theorem pad_sequences_vec_length (E : ℕ) (seq : List (List ℚ)) (L : ℕ)
    (hE : ∀ v ∈ seq, v.length = E) :
    ∀ v ∈ pad_sequences E seq L, v.length = E := by
  intro v hv
  unfold pad_sequences at hv
  by_cases h : seq.length ≤ L
  · rw [if_pos h] at hv
    rcases List.mem_append.1 hv with hv | hv
    · exact hE v hv
    · rw [List.eq_of_mem_replicate hv]
      simp [zeroVec]
  · rw [if_neg h] at hv
    exact hE v (List.mem_of_mem_take hv)

theorem pad_flatten_length (E : ℕ) (seq : List (List ℚ)) (L : ℕ)
    (hE : ∀ v ∈ seq, v.length = E) :
    (pad_sequences E seq L).flatten.length = L * E := by
  rw [List.length_flatten]
  have hrep : (pad_sequences E seq L).map List.length = List.replicate L E := by
    refine List.eq_replicate_iff.2 ⟨?_, ?_⟩
    · simp [pad_sequences_length]
    · intro b hb
      rcases List.mem_map.1 hb with ⟨v, hv, hb⟩
      rw [← hb]
      exact pad_sequences_vec_length E seq L hE v hv
  rw [hrep]
  simp [List.sum_replicate, smul_eq_mul]

theorem not_array_2d_LE (L E : ℕ) : not_array_2d [L, E] L = false := by
  simp [not_array_2d]

theorem ainsert3_keys {α : Type} (r : List (String × α)) (k1 k2 k3 : String)
    (v1 v2 v3 : α) (h1 : alookup r k1 = none) (h2 : alookup r k2 = none)
    (h3 : alookup r k3 = none) (h12 : k2 ≠ k1) (h13 : k3 ≠ k1)
    (h23 : k3 ≠ k2) :
    (ainsert (ainsert (ainsert r k1 v1) k2 v2) k3 v3).map Prod.fst
      = r.map Prod.fst ++ [k1, k2, k3] := by
  have e2 : alookup (ainsert r k1 v1) k2 = none := by
    rw [alookup_ainsert_ne _ _ _ _ h12]
    exact h2
  have e3 : alookup (ainsert (ainsert r k1 v1) k2 v2) k3 = none := by
    rw [alookup_ainsert_ne _ _ _ _ h23, alookup_ainsert_ne _ _ _ _ h13]
    exact h3
  rw [ainsert_keys_fresh _ _ _ e3, ainsert_keys_fresh _ _ _ e2,
      ainsert_keys_fresh _ _ _ h1]
  simp

theorem ainsert3_alookup_ne {α : Type} (r : List (String × α))
    (k1 k2 k3 c : String) (v1 v2 v3 : α)
    (hc1 : c ≠ k1) (hc2 : c ≠ k2) (hc3 : c ≠ k3) :
    alookup (ainsert (ainsert (ainsert r k1 v1) k2 v2) k3 v3) c
      = alookup r c := by
  rw [alookup_ainsert_ne _ _ _ _ hc3, alookup_ainsert_ne _ _ _ _ hc2,
      alookup_ainsert_ne _ _ _ _ hc1]

/-! Claim theorems. -/

/-- C1: For every input string whose count of vocabulary-matched tokens
is at most the configured sequence length `L`, the encoder
`convert_word_to_index` (run with the matrix output shape `(L, E)`,
where no reshape occurs) returns a sequence of length exactly `L` whose
first `tokenCount` entries are the looked-up embedding vectors in
original token order and whose remaining entries are zero vectors of
length `E`. -/
theorem C1_pad_to_length (trained : Vocab) (E L : ℕ) (s : String)
    (h : (lookup_tokens (word_embedding trained E) (splitWs s)).length ≤ L) :
    ∃ m : List (List ℚ),
      convert_word_to_index trained E L [L, E] s = some (Val.arr2 m) ∧
      m.length = L ∧
      m.take (lookup_tokens (word_embedding trained E) (splitWs s)).length
        = lookup_tokens (word_embedding trained E) (splitWs s) ∧
      m.drop (lookup_tokens (word_embedding trained E) (splitWs s)).length
        = List.replicate
            (L - (lookup_tokens (word_embedding trained E) (splitWs s)).length)
            (zeroVec E) := by
  refine ⟨pad_sequences E
    (lookup_tokens (word_embedding trained E) (splitWs s)) L, ?_, ?_, ?_, ?_⟩
  · simp [convert_word_to_index, not_array_2d_LE]
  · exact pad_sequences_length E _ L
  · rw [pad_sequences, if_pos h, List.take_left]
  · rw [pad_sequences, if_pos h, List.drop_left]

/-- Witness for C1 at the spec's example: embedding size 4, sequence
length 3, vocabulary cat/dog, input with an out-of-vocabulary token. -/
theorem C1_witness :
    ∃ m : List (List ℚ),
      convert_word_to_index [("cat", [(1:ℚ), 0, 0, 0]), ("dog", [0, 1, 0, 0])]
        4 3 [3, 4] "cat dog bird" = some (Val.arr2 m) ∧
      m.length = 3 ∧
      m.take 2 = [[1, 0, 0, 0], [0, 1, 0, 0]] ∧
      m.drop 2 = List.replicate 1 (zeroVec 4) :=
  C1_pad_to_length [("cat", [(1:ℚ), 0, 0, 0]), ("dog", [0, 1, 0, 0])] 4 3
    "cat dog bird" (by decide)

/-- C2: For every input string whose count of vocabulary-matched tokens
exceeds the configured sequence length `L`, the encoder (run with the
matrix output shape `(L, E)`) returns exactly the first `L` looked-up
vectors, order-preserved, with no zero-vector padding appended. -/
theorem C2_truncate (trained : Vocab) (E L : ℕ) (s : String)
    (h : L < (lookup_tokens (word_embedding trained E) (splitWs s)).length) :
    convert_word_to_index trained E L [L, E] s
      = some (Val.arr2
          ((lookup_tokens (word_embedding trained E) (splitWs s)).take L)) ∧
    ((lookup_tokens (word_embedding trained E) (splitWs s)).take L).length
      = L := by
  constructor
  · simp [convert_word_to_index, not_array_2d_LE, pad_sequences,
      Nat.not_le.2 h]
  · simp [List.length_take, Nat.min_eq_left (Nat.le_of_lt h)]

/-- Witness for C2 at the spec's example: four matched tokens truncated
to sequence length 3. -/
theorem C2_witness :
    convert_word_to_index [("cat", [(1:ℚ), 0, 0, 0]), ("dog", [0, 1, 0, 0])]
      4 3 [3, 4] "cat dog cat dog"
      = some (Val.arr2 [[1, 0, 0, 0], [0, 1, 0, 0], [1, 0, 0, 0]]) ∧
    ([[(1:ℚ), 0, 0, 0], [0, 1, 0, 0], [1, 0, 0, 0]] :
      List (List ℚ)).length = 3 :=
  C2_truncate [("cat", [(1:ℚ), 0, 0, 0]), ("dog", [0, 1, 0, 0])] 4 3
    "cat dog cat dog" (by decide)

/-- C6: Every whitespace-delimited token of the input that is absent
from the vocabulary mapping is omitted from the resulting vector
sequence, and is never replaced by the `"unk"` fallback vector: the
token contributes no entry at all. -/
theorem C6_oov_dropped (trained : Vocab) (E : ℕ) (w : String)
    (xs ys : List String)
    (h : alookup (word_embedding trained E) w = none) :
    lookup_tokens (word_embedding trained E) (xs ++ w :: ys)
      = lookup_tokens (word_embedding trained E) (xs ++ ys) := by
  rw [lookup_tokens_append, lookup_tokens_append,
      lookup_tokens_cons_of_none _ _ _ h]

/-- Witness for C6: the out-of-vocabulary token contributes nothing. -/
theorem C6_witness :
    alookup (word_embedding [("cat", [(1:ℚ)])] 1) "bird" = none ∧
    lookup_tokens (word_embedding [("cat", [(1:ℚ)])] 1)
        (["cat"] ++ "bird" :: [])
      = lookup_tokens (word_embedding [("cat", [(1:ℚ)])] 1) (["cat"] ++ []) :=
  ⟨by decide, C6_oov_dropped [("cat", [(1:ℚ)])] 1 "bird" ["cat"] [] (by decide)⟩

/-- C7: The encoder is deterministic: for a fixed vocabulary mapping,
sequence length, embedding size and output shape, two applications of
`convert_word_to_index` to the same input string give the same
output (the embedded encoder is a pure function of its five inputs). -/
theorem C7_deterministic (trained : Vocab) (E L : ℕ) (shape : List ℕ)
    (s₁ s₂ : String) (h : s₁ = s₂) :
    convert_word_to_index trained E L shape s₁
      = convert_word_to_index trained E L shape s₂ := by
  rw [h]

/-- Witness for C7 at a concrete configuration and input. -/
theorem C7_witness :
    convert_word_to_index [("cat", [(1:ℚ)])] 1 1 [1, 1] "cat"
      = convert_word_to_index [("cat", [(1:ℚ)])] 1 1 [1, 1] "cat" :=
  C7_deterministic [("cat", [(1:ℚ)])] 1 1 [1, 1] "cat" "cat" rfl

/-- C10: An input string containing the literal whitespace-delimited
token `"unk"` does not have that token dropped: since `"unk"` is always
a key of `word_embedding`, the token contributes the all-zero vector of
length `E` at its position in the looked-up sequence. -/
theorem C10_unk_token (trained : Vocab) (E : ℕ) (s : String)
    (xs ys : List String) (h : splitWs s = xs ++ "unk" :: ys) :
    lookup_tokens (word_embedding trained E) (splitWs s)
      = lookup_tokens (word_embedding trained E) xs
        ++ zeroVec E :: lookup_tokens (word_embedding trained E) ys := by
  rw [h, lookup_tokens_append,
      lookup_tokens_cons_of_some _ _ _ _ (unk_word_embedding trained E)]

/-- Witness for C10: the token "unk" in the middle of the input
contributes the zero vector at its position. -/
theorem C10_witness :
    splitWs "cat unk" = ["cat"] ++ "unk" :: [] ∧
    lookup_tokens (word_embedding [("cat", [(1:ℚ)])] 1) (splitWs "cat unk")
      = lookup_tokens (word_embedding [("cat", [(1:ℚ)])] 1) ["cat"]
        ++ zeroVec 1 :: lookup_tokens (word_embedding [("cat", [(1:ℚ)])] 1) [] :=
  ⟨by decide,
   C10_unk_token [("cat", [(1:ℚ)])] 1 "cat unk" ["cat"] [] (by decide)⟩

/-- C3 counterexample: the claim says flatten-and-reshape is applied
iff the configured shape differs from `(L, E)`; but with `L = 1`,
`E = 2` and shape `(1, 5) ≠ (1, 2)` the code's branch flag
`not_array_2d` is false (it never consults `E` or the shape's second
entry), so the encoder leaves the 1×2 matrix untouched instead of
reshaping it to `(1, 5)` (which would fail). -/
theorem C3_counterexample :
    ([1, 5] : List ℕ) ≠ [1, 2] ∧
    not_array_2d [1, 5] 1 = false ∧
    convert_word_to_index [("cat", [(1:ℚ), 2])] 2 1 [1, 5] "cat"
      = some (Val.arr2 [[1, 2]]) ∧
    npReshape ([[(1:ℚ), 2]] : List (List ℚ)).flatten [1, 5] = none := by
  exact ⟨by decide, by decide, by decide, by decide⟩

/-- C3 amended: the encoder applies flatten-and-reshape iff the
configured shape does not have exactly two dimensions with the first
equal to `L`; the embedding size `E` (the shape's second entry) is
never consulted. When the shape is 2-D with first entry `L`, the
padded `L×E` matrix is returned untouched, even when the shape differs
from `(L, E)`. -/
theorem C3_reshape_condition (trained : Vocab) (E L : ℕ) (shape : List ℕ)
    (s : String) :
    (not_array_2d shape L = false ↔ shape.length = 2 ∧ shape.headD 0 = L) ∧
    convert_word_to_index trained E L shape s
      = if not_array_2d shape L then
          npReshape
            (pad_sequences E
              (lookup_tokens (word_embedding trained E) (splitWs s))
              L).flatten
            shape
        else
          some (Val.arr2
            (pad_sequences E
              (lookup_tokens (word_embedding trained E) (splitWs s)) L)) := by
  constructor
  · simp [not_array_2d]
  · rfl

/-- C4: After vocabulary construction, the mapping always contains the
key "unk" bound to the all-zero vector of length `E`, for every
trained corpus. -/
theorem C4_unk_always_zero (trained : Vocab) (E : ℕ) :
    alookup (word_embedding trained E) "unk" = some (zeroVec E) :=
  unk_word_embedding trained E

/-- C5 counterexample: when the trained vocabulary itself contains the
word "unk" (possible, since the tokenizer can emit it and the
word-to-vector trainer uses minimum count 1), the assignment
`word_embedding["unk"] = zeros` overwrites the trained entry instead of
adding one, so the vocab_size column equals the distinct-word count,
not that count plus one. -/
theorem C5_counterexample :
    (([("unk", [(1:ℚ)])] : Vocab).map Prod.fst).Nodup ∧
    (word_embedding [("unk", [(1:ℚ)])] 1).length
      ≠ ([("unk", [(1:ℚ)])] : Vocab).length + 1 ∧
    alookup
      (transformRow [("unk", [(1:ℚ)])] 1 1 [1, 1] "text" "out"
        [("text", Cell.str "unk")])
      "vocab_size" = some (Cell.nat 1) := by
  exact ⟨by decide, by decide, by decide⟩

/-- C5 amended: provided the reserved word "unk" is not among the
distinct trained words, the vocab_size column value equals the count of
distinct trained words plus one, and it is the same constant on every
output row of the invocation (when "unk" is a trained word the value is
the distinct count itself, as the counterexample shows). -/
theorem C5_vocab_size (trained : Vocab) (E L : ℕ) (shape : List ℕ)
    (inCol outCol : String) (rows : List Row)
    (_hnd : (trained.map Prod.fst).Nodup)
    (hunk : "unk" ∉ trained.map Prod.fst) :
    (word_embedding trained E).length = trained.length + 1 ∧
    ∀ r ∈ tfText_transform trained E L shape inCol outCol rows,
      alookup r "vocab_size" = some (Cell.nat (trained.length + 1)) := by
  have hnone : alookup trained "unk" = none :=
    alookup_eq_none_of_not_mem trained "unk" hunk
  have hlen : (word_embedding trained E).length = trained.length + 1 :=
    ainsert_length_fresh trained "unk" (zeroVec E) hnone
  refine ⟨hlen, ?_⟩
  intro r hr
  rcases List.mem_map.1 hr with ⟨row, _, hrow⟩
  subst hrow
  unfold transformRow
  rw [alookup_ainsert_ne _ _ _ _ (by decide), alookup_ainsert_self, hlen]

/-- Witness for C5 (amended) on a one-word vocabulary and a one-row
dataset. -/
theorem C5_witness :
    (word_embedding [("cat", [(1:ℚ)])] 1).length = 1 + 1 ∧
    ∀ r ∈ tfText_transform [("cat", [(1:ℚ)])] 1 1 [1, 1] "text" "out"
        [[("text", Cell.str "cat")]],
      alookup r "vocab_size" = some (Cell.nat (1 + 1)) :=
  C5_vocab_size [("cat", [(1:ℚ)])] 1 1 [1, 1] "text" "out"
    [[("text", Cell.str "cat")]] (by decide) (by decide)

/-- C8: When reshaping is applied with a flat target shape holding all
`L * E` elements, the encoder's output lists the padded matrix's
entries in row-major order (the concatenation of its rows, first row
first), provided every trained vector has length `E`. -/
theorem C8_rowmajor (trained : Vocab) (E L : ℕ) (s : String)
    (hE : ∀ p ∈ trained, (Prod.snd p).length = E) :
    convert_word_to_index trained E L [L * E] s
      = some (Val.arr1
          (pad_sequences E (lookup_tokens (word_embedding trained E)
            (splitWs s)) L).flatten) := by
  have hvec : ∀ v ∈ lookup_tokens (word_embedding trained E) (splitWs s),
      v.length = E :=
    lookup_tokens_vec_length _ E _ (word_embedding_vec_length trained E hE)
  have hflat := pad_flatten_length E
    (lookup_tokens (word_embedding trained E) (splitWs s)) L hvec
  have h2d : not_array_2d [L * E] L = true := by simp [not_array_2d]
  simp only [convert_word_to_index, h2d, if_true, npReshape, hflat, if_pos]

/-- Witness for C8 at the spec's example: L=4, E=2, shape (8,); the
output is the 8 scalars of the padded matrix, row by row. -/
theorem C8_witness :
    convert_word_to_index [("cat", [(1:ℚ), 0]), ("dog", [0, 1])] 2 4 [8]
      "cat dog"
      = some (Val.arr1 [1, 0, 0, 1, 0, 0, 0, 0]) :=
  C8_rowmajor [("cat", [(1:ℚ), 0]), ("dog", [0, 1])] 2 4 "cat dog" (by decide)

/-- C9: the transform returns the input dataset with all original
columns present and unchanged, augmented with exactly three new
columns — the encoded sequence under the configured output column
name, then vocab_size, then embedding_size — provided those three
names are not already columns of the input and name three distinct
columns. -/
theorem C9_frame (trained : Vocab) (E L : ℕ) (shape : List ℕ)
    (inCol outCol : String) (rows : List Row)
    (hov : outCol ≠ "vocab_size") (hoe : outCol ≠ "embedding_size") :
    tfText_transform trained E L shape inCol outCol rows
      = rows.map (transformRow trained E L shape inCol outCol) ∧
    ∀ r ∈ rows,
      outCol ∉ r.map Prod.fst →
      "vocab_size" ∉ r.map Prod.fst →
      "embedding_size" ∉ r.map Prod.fst →
      (transformRow trained E L shape inCol outCol r).map Prod.fst
          = r.map Prod.fst ++ [outCol, "vocab_size", "embedding_size"] ∧
      ∀ c ∈ r.map Prod.fst,
        alookup (transformRow trained E L shape inCol outCol r) c
          = alookup r c := by
  refine ⟨rfl, ?_⟩
  intro r _ hro hrv hre
  have h1 : alookup r outCol = none :=
    alookup_eq_none_of_not_mem r outCol hro
  have h2 : alookup r "vocab_size" = none :=
    alookup_eq_none_of_not_mem r "vocab_size" hrv
  have h3 : alookup r "embedding_size" = none :=
    alookup_eq_none_of_not_mem r "embedding_size" hre
  constructor
  · unfold transformRow
    exact ainsert3_keys r outCol "vocab_size" "embedding_size" _ _ _
      h1 h2 h3 (Ne.symm hov) (Ne.symm hoe) (by decide)
  · intro c hc
    have hco : c ≠ outCol := fun hh => hro (hh ▸ hc)
    have hcv : c ≠ "vocab_size" := fun hh => hrv (hh ▸ hc)
    have hce : c ≠ "embedding_size" := fun hh => hre (hh ▸ hc)
    unfold transformRow
    exact ainsert3_alookup_ne r outCol "vocab_size" "embedding_size" c _ _ _
      hco hcv hce

/-- Witness for C9 on a one-row dataset with a fresh output column. -/
theorem C9_witness :
    (transformRow [("cat", [(1:ℚ)])] 1 1 [1, 1] "text" "out"
        [("text", Cell.str "cat")]).map Prod.fst
      = ["text", "out", "vocab_size", "embedding_size"] ∧
    alookup
      (transformRow [("cat", [(1:ℚ)])] 1 1 [1, 1] "text" "out"
        [("text", Cell.str "cat")]) "text"
      = some (Cell.str "cat") := by
  have h := (C9_frame [("cat", [(1:ℚ)])] 1 1 [1, 1] "text" "out"
      [[("text", Cell.str "cat")]] (by decide) (by decide)).2
    [("text", Cell.str "cat")] (by simp) (by decide) (by decide) (by decide)
  exact ⟨h.1, h.2 "text" (by decide)⟩
